import Mathlib

/-!
Verification of the lot-matching and gain-computation engines of
`scripts/tezos_tax_scan_2025.py`.

Modelling conventions:
* Python floats are modelled as exact rationals (`ℚ`); the script's numeric
  tolerance `1e-12` is the rational `eps` below.
* ISO-8601 UTC timestamp strings are modelled as integer seconds since the
  epoch (`ℤ`).  The script sorts events by the timestamp *string*; for
  fixed-format ISO-Z strings lexicographic order coincides with chronological
  order, so sorting by the integer timestamp is the same order.  A Python
  `datetime` and the ISO string it was parsed from carry the same information,
  so both the `"ts"` and `"dt"` fields of the script's records are `ℤ` here.
* `strftime("%Y-%m-%d")` groups timestamps by UTC calendar day; on integer
  seconds that is floor division by 86400 (`dayOf`).
* The day-keyed Python dict `acq_by_day` is modelled as an insertion-ordered
  association list; `lookupDay` is `dict.get(day, [])`, `insertDay` is
  `setdefault(day, []).append(...)`.
* The price oracle's network+JSON layer is a function
  `fetch : ℤ → Option (Option ℚ)`.  The outer `Option` is `http_get_json`,
  which the script calls *outside* the `try`: `none` is a raised network/HTTP
  exception, which propagates and aborts the run.  The inner `Option` is the
  parse `float(data["market_data"]["current_price"][vs])`, which *is* inside
  `try/except`: `some none` is a payload on which that parse raises (the
  silent-zero `except` arm), `some (some x)` a payload carrying price `x`.
-/

namespace TezosTax

set_option maxRecDepth 8000

/-- Numeric tolerance `1e-12` used throughout both engines. -/
def eps : ℚ := 1 / 1000000000000

def secondsPerDay : ℤ := 86400

/-- `strftime("%Y-%m-%d")`: the UTC calendar-day index of a timestamp. -/
def dayOf (t : ℤ) : ℤ := Int.fdiv t secondsPerDay

/-- `clamp`: the script maps non-finite floats to `0.0`; every rational is
finite, so on this model `clamp` is the identity. -/
def clamp (q : ℚ) : ℚ := q

/-- Python `round()` rounds half to even. -/
def roundHalfEven (x : ℚ) : ℤ :=
  let n := ⌊x⌋
  let f := x - (n : ℚ)
  if f < 1/2 then n
  else if 1/2 < f then n + 1
  else if n % 2 = 0 then n else n + 1

/-- Python `round(x, 8)`. -/
def round8 (x : ℚ) : ℚ := (roundHalfEven (x * 100000000) : ℚ) / 100000000

/-- `"|".join(tags)` -/
def joinPipe (l : List String) : String := String.intercalate "|" l

/-- The unified ledger event (dataclass `Event`). -/
structure Event where
  timestamp : ℤ
  level : ℤ
  opHash : String
  kind : String
  direction : String
  counterparty : String
  asset : String
  quantity : ℚ
  feeXtz : ℚ
  note : String
  tags : String
  confidence : String
deriving Repr, DecidableEq

/-- Sort key of `events.sort(key=lambda e: e.timestamp)`. -/
def tsLe (a b : Event) : Prop := a.timestamp ≤ b.timestamp

instance : DecidableRel tsLe := fun _ _ => inferInstanceAs (Decidable (_ ≤ _))

instance : IsTotal Event tsLe := ⟨fun a b => Int.le_total a.timestamp b.timestamp⟩

instance : IsTrans Event tsLe := ⟨fun _ _ _ h1 h2 => le_trans h1 h2⟩

/-- A raw TzKT transaction as consumed by `build_events` (only the fields the
script reads).  `timestamp = none` models a missing/falsy timestamp. -/
structure RawXtzOp where
  timestamp : Option ℤ
  level : ℤ
  hash : String
  sender : String
  target : String
  amountMutez : ℚ
  feeMutez : ℚ
  hasParameter : Bool
deriving Repr, DecidableEq

/-- A raw TzKT token transfer as consumed by `build_events`.  `decimals` is
`none` when the metadata has no `decimals` key. -/
structure RawTokenTransfer where
  timestamp : Option ℤ
  level : ℤ
  transactionHash : String
  fromAddr : String
  toAddr : String
  contract : String
  tokenId : String
  standard : String
  symbol : Option String
  name : Option String
  decimals : Option ℕ
  amount : ℚ
deriving Repr, DecidableEq

/-- The XTZ-transaction arm of `build_events`. -/
def buildXtzEvent (addr : String) (op : RawXtzOp) : Option Event :=
  match op.timestamp with
  | none => none
  | some ts =>
    let amountXtz := op.amountMutez / 1000000
    let feeXtz := op.feeMutez / 1000000
    if amountXtz = 0 ∧ feeXtz = 0 then none
    else
      let direction :=
        if op.target.toLower = addr ∧ op.sender.toLower ≠ addr then "in" else "out"
      let counterparty := if direction = "in" then op.sender else op.target
      let note := if op.hasParameter then "contract_call" else "transfer"
      let tags0 : List String :=
        (if 0 < amountXtz ∧ direction = "in" then ["receipt"] else []) ++
        (if 0 < amountXtz ∧ direction = "out" then ["payment_or_disposal"] else [])
      let isSelf := op.sender.toLower = addr ∧ op.target.toLower = addr
      let tags := tags0 ++ (if isSelf then ["self_transfer"] else [])
      let conf := if isSelf then "high" else "medium"
      some ⟨ts, op.level, op.hash, "xtz_transfer", direction, counterparty,
        "XTZ", clamp amountXtz, clamp feeXtz, note, joinPipe tags, conf⟩

/-- The token-transfer arm of `build_events`. -/
def buildTokenEvent (addr : String) (tr : RawTokenTransfer) : Option Event :=
  match tr.timestamp with
  | none => none
  | some ts =>
    let direction := if tr.toAddr.toLower = addr then "in" else "out"
    let counterparty := if direction = "in" then tr.fromAddr else tr.toAddr
    let qty :=
      match tr.decimals with
      | none => tr.amount
      | some d => tr.amount / ((10 : ℚ) ^ d)
    let asset :=
      (tr.symbol.getD (tr.name.getD "TOKEN")) ++ ":" ++ tr.contract ++ ":" ++
        tr.tokenId ++ ":" ++ tr.standard
    let isNft := tr.standard.toUpper = "FA2" ∧ (tr.decimals = none ∨ tr.decimals = some 0) ∧
      tr.amount = 1
    let tags := ["token_transfer"] ++ (if isNft then ["likely_nft"] else [])
    let conf := if isNft then "high" else "medium"
    some ⟨ts, tr.level, tr.transactionHash, "token_transfer", direction, counterparty,
      asset, clamp qty, 0, "token_transfer", joinPipe tags, conf⟩

/-- `build_events`: normalize raw records into the unified ledger, then sort by
timestamp (stable). -/
def buildEvents (address : String) (xtzOps : List RawXtzOp)
    (tokOps : List RawTokenTransfer) : List Event :=
  let addr := address.toLower
  let events := xtzOps.filterMap (buildXtzEvent addr) ++
    tokOps.filterMap (buildTokenEvent addr)
  List.insertionSort tsLe events

/-- Price oracle: daily prices, one per calendar day. -/
abbrev Price := ℤ → ℚ

/-- `PriceOracle.xtz_fmv`: look up the price of the event's calendar day. -/
def xtzFmv (p : Price) (t : ℤ) : ℚ := p (dayOf t)

/-- `PriceOracle.xtz_price_on_date`: returns the cached price when present.
Otherwise it calls `http_get_json` — *outside* the `try`, so a fetch failure
(`fetch d = none`) propagates and aborts the run, modelled as the `none`
result.  Only the price parse is inside `try/except`: a payload with no
parsable price (`fetch d = some none`) silently yields `0.0`.  The computed
price is cached either way. -/
def xtzPriceOnDate (fetch : ℤ → Option (Option ℚ)) (cache : List (ℤ × ℚ)) (d : ℤ) :
    Option (ℚ × List (ℤ × ℚ)) :=
  match List.lookup d cache with
  | some pr => some (pr, cache)
  | none =>
    match fetch d with
    | none => none
    | some payload =>
      let price := payload.getD 0
      some (price, cache ++ [(d, price)])

/-! ## FIFO lot engine (`classify_irs`, XTZ arm) -/

/-- An open FIFO acquisition lot (`{"acquired_ts", "qty", "basis_per"}`). -/
structure Lot where
  acquiredTs : ℤ
  qty : ℚ
  basisPer : ℚ
deriving Repr, DecidableEq

/-- One entry of a FIFO disposal's `lot_breakdown_json`
(`{"from_lot_acquired_ts", "take_qty", "basis_per_usd"}`). -/
structure LotDetail where
  fromLotTs : ℤ
  takeQty : ℚ
  basisPer : ℚ
deriving Repr, DecidableEq

/-- A row of `irs_2025_disposals_fifo.csv`. -/
structure IrsDisposal where
  timestamp : ℤ
  asset : String
  qtyDisposed : ℚ
  fmvUsed : ℚ
  proceeds : ℚ
  basis : ℚ
  gain : ℚ
  feeXtz : ℚ
  opHash : String
  lotBreakdown : List LotDetail
deriving Repr, DecidableEq

/-- The FIFO consumption loop of `classify_irs`
(`while qty_to_dispose > 1e-12 and xtz_lots: ...`).  Returns
`(basis, breakdown entries, remaining lots)`.  When the head lot is not
exhausted (`lot.qty - take > eps`) the residual disposal quantity is
`q - take = q - min q lot.qty = 0 ≤ eps`, so the loop's next guard check
fails and it stops: that branch returns directly. -/
def consumeLots (q : ℚ) : List Lot → ℚ × List LotDetail × List Lot
  | [] => (0, [], [])
  | l :: rest =>
    if q ≤ eps then (0, [], l :: rest)
    else
      let take := min q l.qty
      if l.qty - take ≤ eps then
        let r := consumeLots (q - take) rest
        (take * l.basisPer + r.1, ⟨l.acquiredTs, take, l.basisPer⟩ :: r.2.1, r.2.2)
      else
        (take * l.basisPer, [⟨l.acquiredTs, take, l.basisPer⟩],
          ⟨l.acquiredTs, l.qty - take, l.basisPer⟩ :: rest)

/-- The FIFO engine's mutable state: the open-lot queue and the disposal rows
emitted so far. -/
structure IrsState where
  lots : List Lot
  disposals : List IrsDisposal
deriving Repr, DecidableEq

/-- One iteration of the event loop of `classify_irs` (XTZ lot accounting;
the ledger-row formatting is out of engine scope). -/
def irsStep (p : Price) (s : IrsState) (e : Event) : IrsState :=
  if e.asset = "XTZ" then
    let fmv := xtzFmv p e.timestamp
    if e.direction = "in" ∧ 0 < e.quantity then
      { s with lots := s.lots ++ [⟨e.timestamp, e.quantity, fmv⟩] }
    else if e.direction = "out" ∧ 0 < e.quantity then
      let proceeds := e.quantity * fmv
      let c := consumeLots e.quantity s.lots
      let g := proceeds - c.1
      { lots := c.2.2
        disposals := s.disposals ++ [⟨e.timestamp, e.asset, e.quantity, round8 fmv,
          round8 proceeds, round8 c.1, round8 g, e.feeXtz, e.opHash, c.2.1⟩] }
    else s
  else s

/-- `classify_irs`: fold the event list through the FIFO engine. -/
def classifyIrs (p : Price) (events : List Event) : IrsState :=
  events.foldl (irsStep p) ⟨[], []⟩

/-! ## UK (HMRC-style) matching engine (`hmrc_pooling_disposals`) -/

/-- A day-bucket acquisition record (`{"ts", "dt", "qty", "cost_per"}`;
`ts` and `dt` carry the same instant, see the header notes). -/
structure AcqRec where
  ts : ℤ
  dt : ℤ
  qty : ℚ
  costPer : ℚ
deriving Repr, DecidableEq

/-- One entry of `matching_breakdown_json`.  Same-day entries carry no
`rule` key, 30-day entries carry `rule="30-day"`, pool entries carry
`rule="S104"` and no `from_acq_ts`. -/
structure MatchRec where
  fromAcqTs : Option ℤ
  takeQty : ℚ
  costPer : ℚ
  rule : Option String
deriving Repr, DecidableEq

/-- A `future_acqs` entry: the tuple `(dt, qty, cost_per, ts)`. -/
structure FAcq where
  dt : ℤ
  qty : ℚ
  costPer : ℚ
  ts : ℤ
deriving Repr, DecidableEq

/-- A row of `hmrc_2025_disposals_pooling.csv`. -/
structure HDisposal where
  timestamp : ℤ
  asset : String
  qtyDisposed : ℚ
  fmvUsed : ℚ
  proceeds : ℚ
  allowableCost : ℚ
  gain : ℚ
  opHash : String
  breakdown : List MatchRec
deriving Repr, DecidableEq

/-- The walking loop of `consume_from_list` (before the final filter).
Returns `(cost, used entries, the list with quantities reduced in place)`.
As in `consumeLots`, in the `break` branch (head record not exhausted) the
residual is `0 ≤ eps`, so returning directly matches the loop. -/
def consumeLoop (q : ℚ) : List AcqRec → ℚ × List MatchRec × List AcqRec
  | [] => (0, [], [])
  | r :: rest =>
    if q ≤ eps then (0, [], r :: rest)
    else
      let take := min q r.qty
      if r.qty - take ≤ eps then
        let c := consumeLoop (q - take) rest
        (take * r.costPer + c.1, ⟨some r.ts, take, r.costPer, none⟩ :: c.2.1,
          { r with qty := r.qty - take } :: c.2.2)
      else
        (take * r.costPer, [⟨some r.ts, take, r.costPer, none⟩],
          { r with qty := r.qty - take } :: rest)

/-- `consume_from_list`: the loop, then
`lst[:] = [r for r in lst if r["qty"] > 1e-12]`. -/
def consumeFromList (q : ℚ) (lst : List AcqRec) : ℚ × List MatchRec × List AcqRec :=
  let c := consumeLoop q lst
  (c.1, c.2.1, c.2.2.filter (fun r => decide (eps < r.qty)))

/-- The 30-day eligibility test `adt > dt and (adt - dt).days <= 30`.
`timedelta.days` is floor division of the (positive) delta by one day. -/
def eligible30 (ddt adt : ℤ) : Bool :=
  decide (ddt < adt) && decide (Int.fdiv (adt - ddt) secondsPerDay ≤ 30)

/-- The write-back loop: find the first `future_acqs` entry with this `ts`
and subtract `take` from its quantity. -/
def writeBack (take : ℚ) (ts : ℤ) : List FAcq → List FAcq
  | [] => []
  | r :: rest =>
    if r.ts = ts then { r with qty := r.qty - take } :: rest
    else r :: writeBack take ts rest

/-- Loop state of the 30-day matching pass: residual quantity, accumulated
cost, accumulated breakdown entries, and the (written-back) lookahead list. -/
structure ThirtyState where
  qtyLeft : ℚ
  cost : ℚ
  used : List MatchRec
  futureAcqs : List FAcq
deriving Repr, DecidableEq

/-- One iteration of `for rec in thirty`.  The Python `break` on
`qty_left <= 1e-12` is modelled by a no-op: once the residual is `≤ eps`
every later iteration leaves the state unchanged. -/
def thirtyStep (st : ThirtyState) (rec : FAcq) : ThirtyState :=
  if st.qtyLeft ≤ eps then st
  else
    let take := min st.qtyLeft rec.qty
    { qtyLeft := st.qtyLeft - take
      cost := st.cost + take * rec.costPer
      used := st.used ++ [⟨some rec.ts, take, rec.costPer, some "30-day"⟩]
      futureAcqs := writeBack take rec.ts st.futureAcqs }

/-- Sort key of `thirty.sort(key=lambda x: x[0])`. -/
def dtLe (a b : FAcq) : Prop := a.dt ≤ b.dt

instance : DecidableRel dtLe := fun _ _ => inferInstanceAs (Decidable (_ ≤ _))

/-- The whole 30-day matching pass of a disposal at instant `ddt`: filter the
eligible lookahead entries, sort them by acquisition time, and consume. -/
def thirtyPhase (ddt : ℤ) (st : ThirtyState) : ThirtyState :=
  let thirty := List.insertionSort dtLe
    (st.futureAcqs.filter fun r => eligible30 ddt r.dt && decide (eps < r.qty))
  thirty.foldl thirtyStep st

/-- The day-keyed dictionary `acq_by_day`, as an insertion-ordered
association list (a Python `dict`). -/
abbrev DayIndex := List (ℤ × List AcqRec)

/-- `acq_by_day.get(day, [])`. -/
def lookupDay (m : DayIndex) (day : ℤ) : List AcqRec :=
  (List.lookup day m).getD []

/-- `acq_by_day.setdefault(day, []).append(rec)`: append to the day's list,
inserting the key at the end on first use. -/
def insertDay (m : DayIndex) (day : ℤ) (r : AcqRec) : DayIndex :=
  match m with
  | [] => [(day, [r])]
  | (d, l) :: rest =>
    if d = day then (d, l ++ [r]) :: rest else (d, l) :: insertDay rest day r

/-- Store the day's (in-place mutated) bucket back.  When the key is absent
the script mutated the temporary `[]` from `.get(day, [])`; the stored list
is `[]` in that case, so adding the key is lookup-equivalent. -/
def updateDay (m : DayIndex) (day : ℤ) (l : List AcqRec) : DayIndex :=
  match m with
  | [] => [(day, l)]
  | (d, l0) :: rest =>
    if d = day then (d, l) :: rest else (d, l0) :: updateDay rest day l

/-- The UK engine's state: the per-day acquisition index, the 30-day
lookahead list, the Section-104 pool scalars, and the rows emitted so far. -/
structure HState where
  acqByDay : DayIndex
  futureAcqs : List FAcq
  poolQty : ℚ
  poolCost : ℚ
  disposals : List HDisposal
deriving Repr, DecidableEq

/-- Sum of `take_qty` over breakdown entries. -/
def sumTakes (l : List MatchRec) : ℚ := (l.map MatchRec.takeQty).sum

/-- First pass of `hmrc_pooling_disposals`: record acquisitions per day and
in the lookahead list. -/
def firstPassStep (p : Price) (st : DayIndex × List FAcq) (e : Event) :
    DayIndex × List FAcq :=
  let dt := e.timestamp
  let day := dayOf dt
  let fmv := xtzFmv p dt
  if e.direction = "in" then
    (insertDay st.1 day ⟨e.timestamp, dt, e.quantity, fmv⟩,
     st.2 ++ [⟨dt, e.quantity, fmv, e.timestamp⟩])
  else st

/-- The Section-104 pool step of a disposal (`# 3) Section 104 pool for
remainder`).  Returns `(pool cost contribution, pool breakdown entries,
new pool_qty, new pool_cost)`.  When the residual is `≤ eps` the Python
block is skipped entirely, which adds `0` cost and leaves the pool alone. -/
def poolPhase (poolQty poolCost qtyLeft : ℚ) : ℚ × List MatchRec × ℚ × ℚ :=
  if eps < qtyLeft then
    if poolQty ≤ eps then (0, [], poolQty, poolCost)
    else
      let avg := poolCost / poolQty
      let pc := qtyLeft * avg
      (pc, [⟨none, qtyLeft, avg, some "S104"⟩], poolQty - qtyLeft, poolCost - pc)
  else (0, [], poolQty, poolCost)

/-- The disposal arm of the second pass of `hmrc_pooling_disposals`:
same-day matching, then 30-day matching, then the Section-104 pool. -/
def hmrcDisposalStep (p : Price) (s : HState) (e : Event) : HState :=
  let dt := e.timestamp
  let day := dayOf dt
  let fmv := xtzFmv p dt
  let qty := e.quantity
  let proceeds := qty * fmv
  let sd := consumeFromList qty (lookupDay s.acqByDay day)
  let qtyLeft0 := qty - sumTakes sd.2.1
  let t :=
    if eps < qtyLeft0 then thirtyPhase dt ⟨qtyLeft0, sd.1, sd.2.1, s.futureAcqs⟩
    else ⟨qtyLeft0, sd.1, sd.2.1, s.futureAcqs⟩
  let pool := poolPhase s.poolQty s.poolCost t.qtyLeft
  let costTotal := t.cost + pool.1
  let gain := proceeds - costTotal
  { acqByDay := updateDay s.acqByDay day sd.2.2
    futureAcqs := t.futureAcqs
    poolQty := pool.2.2.1
    poolCost := pool.2.2.2
    disposals := s.disposals ++ [⟨e.timestamp, "XTZ", qty, round8 fmv,
      round8 proceeds, round8 costTotal, round8 gain, e.opHash,
      t.used ++ pool.2.1⟩] }

/-- One iteration of the second (chronological) pass of
`hmrc_pooling_disposals`: an acquisition credits the pool immediately and
`continue`s; anything else is a disposal. -/
def hmrcStep (p : Price) (s : HState) (e : Event) : HState :=
  if e.direction = "in" then
    { s with poolQty := s.poolQty + e.quantity
             poolCost := s.poolCost + e.quantity * xtzFmv p e.timestamp }
  else hmrcDisposalStep p s e

/-- `xtz_events`: the XTZ-only positive-quantity events, re-sorted by
timestamp. -/
def hmrcInputList (events : List Event) : List Event :=
  List.insertionSort tsLe
    (events.filter fun e => decide (e.asset = "XTZ") && decide (0 < e.quantity))

/-- The two passes of `hmrc_pooling_disposals` over a prepared event list. -/
def hmrcCore (p : Price) (xs : List Event) : HState :=
  let fp := xs.foldl (firstPassStep p) ([], [])
  xs.foldl (hmrcStep p) ⟨fp.1, fp.2, 0, 0, []⟩

/-- `hmrc_pooling_disposals` as a state-producing run. -/
def hmrcRun (p : Price) (events : List Event) : HState :=
  hmrcCore p (hmrcInputList events)

/-- `hmrc_pooling_disposals`: the emitted disposal rows. -/
def hmrcPoolingDisposals (p : Price) (events : List Event) : List HDisposal :=
  (hmrcRun p events).disposals

/-! ## Derived observations used by the claims -/

/-- Sum of `take_qty` over a FIFO breakdown. -/
def sumTakesLD (l : List LotDetail) : ℚ := (l.map LotDetail.takeQty).sum

/-- Total remaining quantity of a FIFO lot queue. -/
def totalLotQty (l : List Lot) : ℚ := (l.map Lot.qty).sum

/-- Total quantity the UK engine matched (same-day or 30-day) against the
acquisition with timestamp `ts`, across all emitted disposal rows. -/
def matchedFromAcq (ds : List HDisposal) (ts : ℤ) : ℚ :=
  (ds.map fun d =>
    sumTakes (d.breakdown.filter fun u => decide (u.fromAcqTs = some ts))).sum

/-- The residual quantity of a disposal event `e` against state `s` after the
same-day and 30-day phases, recomputed from the same phase functions the
engine uses (this is the quantity the Section-104 pool step sees). -/
def residualAfterMatching (s : HState) (e : Event) : ℚ :=
  let day := dayOf e.timestamp
  let sd := consumeFromList e.quantity (lookupDay s.acqByDay day)
  let qtyLeft0 := e.quantity - sumTakes sd.2.1
  if eps < qtyLeft0 then
    (thirtyPhase e.timestamp ⟨qtyLeft0, sd.1, sd.2.1, s.futureAcqs⟩).qtyLeft
  else qtyLeft0

/-! ## Concrete fixtures used by the claim instances -/

/-- A plain XTZ ledger event (fee 0). -/
def xtzEvent (ts : ℤ) (dir : String) (q : ℚ) : Event :=
  ⟨ts, 0, "h", "xtz_transfer", dir, "cp", "XTZ", q, 0, "transfer", "", "medium"⟩

/-- Flat unit price. -/
def onePrice : Price := fun _ => 1

def twoPrice : Price := fun _ => 2

def threePrice : Price := fun _ => 3

/-- Dispose 5 on day 1, acquire 5 on day 2, dispose 5 later on day 2: both
disposals can match the single day-2 acquisition (30-day, then same-day). -/
def dblEvents : List Event :=
  [xtzEvent 100000 "out" 5, xtzEvent 200000 "in" 5, xtzEvent 250000 "out" 5]

/-- Acquire 1 on day 0, dispose 5 on day 1: the pool holds 1 when the
residual 5 is debited. -/
def negPoolEvents : List Event := [xtzEvent 0 "in" 1, xtzEvent 86400 "out" 5]

/-- Dispose 5 with no acquisitions at all. -/
def overDispEvents : List Event := [xtzEvent 0 "out" 5]

/-- Dispose 5 at t = 0; acquire 5 exactly 30 days later. -/
def thirtyEdgeEvents : List Event :=
  [xtzEvent 0 "out" 5, xtzEvent (30 * 86400) "in" 5]

/-- Dispose 5 at t = 0; acquire 5 exactly 31 days later. -/
def thirtyOneEdgeEvents : List Event :=
  [xtzEvent 0 "out" 5, xtzEvent (31 * 86400) "in" 5]

/-- Acquire 10 on day 0 at price 2; dispose 4 on day 1 at price 5. -/
def fifoScenarioEvents : List Event :=
  [xtzEvent 0 "in" 10, xtzEvent 86400 "out" 4]

def fifoScenarioPrice : Price := fun d => if d = 0 then 2 else 5

/-- A disposal event placed before the acquisition it follows in time. -/
def unsortedPair : List Event := [xtzEvent 86400 "out" 1, xtzEvent 0 "in" 1]

def sortedPair : List Event := [xtzEvent 0 "in" 1, xtzEvent 86400 "out" 1]

/-- The empty UK engine state. -/
def hInit : HState := ⟨[], [], 0, 0, []⟩

/-- A UK engine state holding only a pool of 10 units costing 20. -/
def poolOnlyState : HState := ⟨[], [], 10, 20, []⟩

/-- A FIFO state holding one open lot of 10 units at unit cost 2. -/
def oneLotState : IrsState := ⟨[⟨0, 10, 2⟩], []⟩

/-- A fetch whose HTTP request always raises (the exception propagates). -/
def failFetch : ℤ → Option (Option ℚ) := fun _ => none

/-- A fetch that always returns a payload carrying no parsable price. -/
def noPriceFetch : ℤ → Option (Option ℚ) := fun _ => some none

/-! ## Helper lemmas -/

set_option allowUnsafeReducibility true
attribute [local semireducible] Rat.mul Rat.add Rat.sub Rat.div Rat.inv Rat.blt
  Rat.floor Rat.ofScientific

theorem eps_pos : 0 < eps := by norm_num [eps]

theorem eps_nonneg : 0 ≤ eps := le_of_lt eps_pos

/-! ## Claim C2 -/

/-- C2 (code bug): the claim states `pool_quantity ≥ 0` and `pool_cost ≥ 0`
after every event, and that the pool-debit step never drives either scalar
negative.  The code violates this: acquiring 1 unit (price 2) and then
disposing 5 units leaves `pool_qty = -4` and `pool_cost = -8`, because the
Section-104 debit subtracts the full residual even when it exceeds the pool
(only the exactly-empty pool is guarded). -/
theorem c2_pool_debit_goes_negative :
    (hmrcRun twoPrice negPoolEvents).poolQty = -4 ∧
    (hmrcRun twoPrice negPoolEvents).poolQty < 0 ∧
    (hmrcRun twoPrice negPoolEvents).poolCost = -8 ∧
    (hmrcRun twoPrice negPoolEvents).poolCost < 0 := by
  decide

/-! ## Claim C9 -/

/-- C9: the FIFO engine values proceeds at the disposal day's own price and
consumes lots oldest-first with splitting.  For "acquire 10 at cost 2 on
day 0; dispose 4 at price 5 on day 1" it emits exactly one record with
proceeds 20, basis 8, gain 12 (taking 4 units from the day-0 lot), and the
queue retains one lot of 6 units at unit cost 2. -/
theorem c9_fifo_scenario :
    (classifyIrs fifoScenarioPrice fifoScenarioEvents).disposals =
      [⟨86400, "XTZ", 4, 5, 20, 8, 12, 0, "h", [⟨0, 4, 2⟩]⟩] ∧
    (classifyIrs fifoScenarioPrice fifoScenarioEvents).lots = [⟨0, 6, 2⟩] := by
  decide

/-! ## Claim C1 -/

/-- C1 counterexample: in the run `dblEvents` the single acquisition
(timestamp 200000, quantity 5) is matched by a 30-day rule for the first
disposal *and* again by a same-day rule for the second disposal: 10 units
are matched out of a 5-unit acquisition, so the no-double-spend claim is
false. -/
theorem c1_counterexample :
    ((dblEvents.filter fun e => e.direction == "in").map fun e =>
      (e.timestamp, e.quantity)) = [(200000, 5)] ∧
    matchedFromAcq (hmrcPoolingDisposals onePrice dblEvents) 200000 = 10 ∧
    ¬ (matchedFromAcq (hmrcPoolingDisposals onePrice dblEvents) 200000 ≤ 5) := by
  decide

/-- C1 (amended): the day-bucket index and the 30-day lookahead list hold
independent copies of each acquisition's quantity, not references to a
single source of truth.  A disposal that finishes within the same-day phase
(residual ≤ ε) leaves `future_acqs` untouched no matter how much same-day
quantity it consumed, and conversely 30-day consumption never updates the
day buckets, so the same units can be matched under both rules: in
`dblEvents` a 5-unit acquisition is matched twice for a total of 10. -/
theorem c1_separate_copies_double_match :
    (∀ (p : Price) (s : HState) (e : Event), e.direction ≠ "in" →
      e.quantity - sumTakes (consumeFromList e.quantity
        (lookupDay s.acqByDay (dayOf e.timestamp))).2.1 ≤ eps →
      (hmrcStep p s e).futureAcqs = s.futureAcqs) ∧
    matchedFromAcq (hmrcPoolingDisposals onePrice dblEvents) 200000 = 10 ∧
    ((dblEvents.filter fun e => e.direction == "in").map fun e =>
      (e.timestamp, e.quantity)) = [(200000, 5)] := by
  refine ⟨?_, by decide, by decide⟩
  intro p s e hdir hres
  rw [hmrcStep, if_neg hdir]
  simp only [hmrcDisposalStep]
  rw [if_neg (not_lt.mpr hres)]

/-- Witness for the hypotheses of `c1_separate_copies_double_match`. -/
theorem c1_witness :
    (xtzEvent 0 "out" eps).direction ≠ "in" ∧
    (xtzEvent 0 "out" eps).quantity - sumTakes (consumeFromList
      (xtzEvent 0 "out" eps).quantity
      (lookupDay hInit.acqByDay (dayOf (xtzEvent 0 "out" eps).timestamp))).2.1 ≤ eps ∧
    (hmrcStep onePrice hInit (xtzEvent 0 "out" eps)).futureAcqs = hInit.futureAcqs :=
  ⟨by decide, by decide,
    c1_separate_copies_double_match.1 onePrice hInit (xtzEvent 0 "out" eps)
      (by decide) (by decide)⟩

/-! ## Claim C8 -/

/-- C8: the 30-day window of the UK engine accepts only acquisitions
strictly after the disposal instant, up to and including exactly 30 days
(`2 592 000` seconds) later; 31 days later is excluded, and the disposal
instant itself is excluded.  The two concrete runs exercise the engine at
both boundary offsets: the day-30 acquisition is matched under the 30-day
rule, the day-31 acquisition is not matched at all. -/
theorem c8_thirty_day_window :
    (∀ ddt : ℤ, eligible30 ddt (ddt + 30 * secondsPerDay) = true ∧
      eligible30 ddt (ddt + 31 * secondsPerDay) = false ∧
      eligible30 ddt ddt = false) ∧
    ((hmrcPoolingDisposals onePrice thirtyEdgeEvents).map fun d =>
      d.breakdown.map fun u => (u.fromAcqTs, u.takeQty, u.rule)) =
        [[(some 2592000, 5, some "30-day")]] ∧
    ((hmrcPoolingDisposals onePrice thirtyOneEdgeEvents).map fun d =>
      d.breakdown.map fun u => (u.fromAcqTs, u.takeQty, u.rule)) = [[]] := by
  refine ⟨fun ddt => ⟨?_, ?_, ?_⟩, by decide, by decide⟩
  · simp only [eligible30, Bool.and_eq_true, decide_eq_true_eq]
    refine ⟨by rw [show secondsPerDay = 86400 from rfl]; omega, ?_⟩
    rw [add_sub_cancel_left]
    decide
  · have h31 : Int.fdiv (ddt + 31 * secondsPerDay - ddt) secondsPerDay = 31 := by
      rw [add_sub_cancel_left]; decide
    show (decide (ddt < ddt + 31 * secondsPerDay) &&
      decide (Int.fdiv (ddt + 31 * secondsPerDay - ddt) secondsPerDay ≤ 30)) = false
    rw [h31]
    cases h : decide (ddt < ddt + 31 * secondsPerDay) <;> simp
  · simp [eligible30, lt_irrefl]

/-! ## Claims C3, C4: counterexamples -/

/-- C3 counterexample: disposing 5 units with no acquisitions yields a
DisposalRecord whose breakdown sums to 0, not to 5: the breakdown-sum
invariant fails when supply is exhausted (the difference, 5, is far above
ε = 1e-12). -/
theorem c3_counterexample :
    (((classifyIrs threePrice overDispEvents).disposals.map fun r =>
      (r.qtyDisposed, sumTakesLD r.lotBreakdown)) = [(5, 0)]) ∧
    ¬ (∀ r ∈ (classifyIrs threePrice overDispEvents).disposals,
        r.qtyDisposed - sumTakesLD r.lotBreakdown ≤ eps) := by
  decide

/-- C4 counterexample: the over-disposal of 5 units with the queue empty
produces basis 0 and an *empty* breakdown: there is no `rule=FIFO` entry
with `unit_cost=0`, nor any explicit flag — the shortfall is observable only
by comparing the disposed quantity with the breakdown sum. -/
theorem c4_counterexample :
    ((classifyIrs threePrice overDispEvents).disposals.map fun r =>
      (r.qtyDisposed, r.basis, r.lotBreakdown)) = [(5, 0, [])] ∧
    ¬ (∃ r ∈ (classifyIrs threePrice overDispEvents).disposals,
        ∃ u ∈ r.lotBreakdown, u.basisPer = 0) := by
  decide

/-! ## Claim C5: counterexample -/

/-- C5 counterexample: an input that is not sorted ascending by timestamp is
not rejected: the UK engine silently re-sorts it and produces exactly the
records of the sorted input. -/
theorem c5_counterexample :
    ¬ List.Sorted tsLe unsortedPair ∧
    hmrcPoolingDisposals onePrice unsortedPair =
      hmrcPoolingDisposals onePrice sortedPair ∧
    (hmrcPoolingDisposals onePrice unsortedPair).length = 1 := by
  refine ⟨?_, by decide, by decide⟩
  intro h
  simp only [unsortedPair] at h
  have := (List.sorted_cons.mp h).1 (xtzEvent 0 "in" 1) (by simp)
  exact absurd this (by decide)

/-! ## Claim C6: counterexample -/

/-- C6 counterexample: when the fetched payload carries no parsable price
for an uncached day — the "price unavailable" case — no "no price" error is
surfaced: the oracle silently returns the default price 0.0 and caches it. -/
theorem c6_counterexample :
    xtzPriceOnDate noPriceFetch [] 0 = some (0, [(0, 0)]) := by
  decide

/-! ## Claim C5: amended -/

/-- Inserting an element that precedes every element of the list puts it at
the head. -/
theorem orderedInsert_eq_cons (a : Event) (l : List Event)
    (h : ∀ c ∈ l, tsLe a c) : List.orderedInsert tsLe a l = a :: l := by
  cases l with
  | nil => rfl
  | cons c l => simp only [List.orderedInsert, if_pos (h c (by simp))]

/-- Filtering commutes with `orderedInsert` into a sorted list: the stable
insertion point of `a` among the kept elements is unchanged. -/
theorem filter_orderedInsert (f : Event → Bool) (a : Event) :
    ∀ l : List Event, List.Sorted tsLe l →
      List.filter f (List.orderedInsert tsLe a l) =
        if f a then List.orderedInsert tsLe a (List.filter f l)
        else List.filter f l := by
  intro l
  induction l with
  | nil =>
    intro _
    cases hfa : f a <;> simp [List.orderedInsert, List.filter_cons, hfa]
  | cons b l ih =>
    intro hs
    by_cases hab : tsLe a b
    · simp only [List.orderedInsert, if_pos hab]
      have hal : ∀ c ∈ List.filter f l, tsLe a c := fun c hc =>
        le_trans hab (List.rel_of_sorted_cons hs c (List.mem_of_mem_filter hc))
      cases hfa : f a
      · simp [List.filter_cons, hfa]
      · cases hfb : f b
        · simp only [List.filter_cons, hfa, hfb, if_pos, if_neg, Bool.false_eq_true,
            ite_true, ite_false]
          rw [orderedInsert_eq_cons a _ hal]
        · simp only [List.filter_cons, hfa, hfb, ite_true]
          simp only [List.orderedInsert, if_pos hab]
    · simp only [List.orderedInsert, if_neg hab]
      have ihl := ih hs.of_cons
      by_cases hfa : f a = true
      · rw [if_pos hfa] at ihl
        rw [if_pos hfa]
        by_cases hfb : f b = true
        · rw [List.filter_cons, if_pos hfb, List.filter_cons, if_pos hfb, ihl]
          simp only [List.orderedInsert, if_neg hab]
        · rw [List.filter_cons, if_neg hfb, List.filter_cons, if_neg hfb, ihl]
      · rw [if_neg hfa] at ihl
        rw [if_neg hfa]
        by_cases hfb : f b = true
        · rw [List.filter_cons, if_pos hfb, List.filter_cons, if_pos hfb, ihl]
        · rw [List.filter_cons, if_neg hfb, List.filter_cons, if_neg hfb, ihl]

/-- Filtering commutes with the stable insertion sort. -/
theorem filter_insertionSort (f : Event → Bool) :
    ∀ l : List Event, List.filter f (List.insertionSort tsLe l) =
      List.insertionSort tsLe (List.filter f l) := by
  intro l
  induction l with
  | nil => rfl
  | cons a l ih =>
    rw [List.insertionSort,
      filter_orderedInsert f a _ (List.sorted_insertionSort tsLe l), List.filter_cons]
    cases hfa : f a
    · simp [ih]
    · simp [List.insertionSort, ih]

/-- The UK engine's input preparation is insensitive to pre-sorting: its own
stable re-sort absorbs any permutation of the timestamps. -/
theorem hmrcInputList_resort (events : List Event) :
    hmrcInputList (List.insertionSort tsLe events) = hmrcInputList events := by
  rw [hmrcInputList, hmrcInputList, filter_insertionSort,
    (List.sorted_insertionSort tsLe _).insertionSort_eq]

/-- C5 (amended): the engine never validates input ordering and never
rejects a run: `build_events` sorts the normalized events by timestamp and
the UK engine re-sorts its filtered input, so *every* input — in particular
every out-of-order one — is silently re-sorted and yields exactly the
records of its stable timestamp-sorted permutation. -/
theorem c5_silent_resort (p : Price) (events : List Event) :
    hmrcPoolingDisposals p events =
      hmrcPoolingDisposals p (List.insertionSort tsLe events) := by
  rw [hmrcPoolingDisposals, hmrcPoolingDisposals, hmrcRun, hmrcRun,
    hmrcInputList_resort]

/-! ## Claim C6: amended -/

/-- C6 (amended): the two failure paths of an uncached lookup differ.  A
failure of the HTTP fetch itself propagates and aborts the run
(`http_get_json` is called outside the `try`), but when the fetch succeeds
and the payload carries no parsable price — the "price unavailable" case —
no error is surfaced: the `except` arm silently substitutes the default
price `0.0` and caches it, so every later lookup of that day also
returns 0. -/
theorem c6_silent_zero_price (fetch : ℤ → Option (Option ℚ))
    (cache : List (ℤ × ℚ)) (d : ℤ) (hc : List.lookup d cache = none) :
    (fetch d = none → xtzPriceOnDate fetch cache d = none) ∧
    (fetch d = some none →
      xtzPriceOnDate fetch cache d = some (0, cache ++ [(d, 0)])) := by
  constructor <;> intro hf <;> simp [xtzPriceOnDate, hc, hf]

/-- Witness for the hypotheses of `c6_silent_zero_price`, exercising both
the aborting fetch-failure path and the silent-zero parse-failure path. -/
theorem c6_witness :
    (List.lookup 0 ([] : List (ℤ × ℚ)) = none ∧ failFetch 0 = none ∧
      xtzPriceOnDate failFetch [] 0 = none) ∧
    (noPriceFetch 0 = some none ∧
      xtzPriceOnDate noPriceFetch [] 0 = some (0, [] ++ [(0, 0)])) :=
  ⟨⟨rfl, rfl, (c6_silent_zero_price failFetch [] 0 rfl).1 rfl⟩,
   ⟨rfl, (c6_silent_zero_price noPriceFetch [] 0 rfl).2 rfl⟩⟩

/-! ## Claim C7 -/

theorem poolPhase_debit (pq pc r : ℚ) (hr : eps < r) (hp : ¬ pq ≤ eps) :
    (poolPhase pq pc r).2.2.1 = pq - r ∧
    (poolPhase pq pc r).2.2.2 = pc - r * (pc / pq) := by
  rw [poolPhase, if_pos hr, if_neg hp]; exact ⟨rfl, rfl⟩

theorem poolPhase_small (pq pc r : ℚ) (hr : ¬ eps < r) :
    (poolPhase pq pc r).2.2.1 = pq ∧ (poolPhase pq pc r).2.2.2 = pc := by
  rw [poolPhase, if_neg hr]; exact ⟨rfl, rfl⟩

theorem poolPhase_empty (pq pc r : ℚ) (hp : pq ≤ eps) :
    (poolPhase pq pc r).2.2.1 = pq ∧ (poolPhase pq pc r).2.2.2 = pc := by
  rw [poolPhase]
  by_cases hr : eps < r
  · rw [if_pos hr, if_pos hp]; exact ⟨rfl, rfl⟩
  · rw [if_neg hr]; exact ⟨rfl, rfl⟩

/-- The pool scalars after a disposal step are the pool phase applied to the
residual left by the same-day and 30-day phases. -/
theorem hmrcDisposalStep_pool (p : Price) (s : HState) (e : Event) :
    (hmrcDisposalStep p s e).poolQty =
      (poolPhase s.poolQty s.poolCost (residualAfterMatching s e)).2.2.1 ∧
    (hmrcDisposalStep p s e).poolCost =
      (poolPhase s.poolQty s.poolCost (residualAfterMatching s e)).2.2.2 := by
  by_cases hc : eps < e.quantity - sumTakes (consumeFromList e.quantity
      (lookupDay s.acqByDay (dayOf e.timestamp))).2.1
  · simp only [hmrcDisposalStep, residualAfterMatching, if_pos hc]
    constructor <;> trivial
  · simp only [hmrcDisposalStep, residualAfterMatching, if_neg hc]
    constructor <;> trivial

/-- C7: every acquisition credits the pool (quantity and cost at that day's
price) at the moment it is processed, regardless of any later matching; a
disposal debits the pool only by its residual after same-day and 30-day
matching, at the pool's current average cost `pool_cost / pool_qty`; a
disposal whose residual is ≤ ε, or arriving at an ε-empty pool, leaves the
pool untouched. -/
theorem c7_pool_credit_debit (p : Price) (s : HState) (e : Event) :
    (e.direction = "in" →
      (hmrcStep p s e).poolQty = s.poolQty + e.quantity ∧
      (hmrcStep p s e).poolCost = s.poolCost + e.quantity * xtzFmv p e.timestamp ∧
      (hmrcStep p s e).disposals = s.disposals) ∧
    (e.direction ≠ "in" →
      (eps < residualAfterMatching s e → eps < s.poolQty →
        (hmrcStep p s e).poolQty = s.poolQty - residualAfterMatching s e ∧
        (hmrcStep p s e).poolCost =
          s.poolCost - residualAfterMatching s e * (s.poolCost / s.poolQty)) ∧
      (residualAfterMatching s e ≤ eps →
        (hmrcStep p s e).poolQty = s.poolQty ∧
        (hmrcStep p s e).poolCost = s.poolCost) ∧
      (s.poolQty ≤ eps →
        (hmrcStep p s e).poolQty = s.poolQty ∧
        (hmrcStep p s e).poolCost = s.poolCost)) := by
  constructor
  · intro hdir
    rw [hmrcStep, if_pos hdir]
    exact ⟨rfl, rfl, rfl⟩
  · intro hdir
    have hstep : hmrcStep p s e = hmrcDisposalStep p s e := by
      rw [hmrcStep, if_neg hdir]
    obtain ⟨hq, hc⟩ := hmrcDisposalStep_pool p s e
    refine ⟨fun hr hp => ?_, fun hr => ?_, fun hp => ?_⟩
    · obtain ⟨h1, h2⟩ := poolPhase_debit s.poolQty s.poolCost _ hr (not_le.mpr hp)
      rw [hstep, hq, hc, h1, h2]; exact ⟨rfl, rfl⟩
    · obtain ⟨h1, h2⟩ := poolPhase_small s.poolQty s.poolCost _ (not_lt.mpr hr)
      rw [hstep, hq, hc, h1, h2]; exact ⟨rfl, rfl⟩
    · obtain ⟨h1, h2⟩ := poolPhase_empty s.poolQty s.poolCost _ hp
      rw [hstep, hq, hc, h1, h2]; exact ⟨rfl, rfl⟩

/-- Witness for the hypotheses of `c7_pool_credit_debit`, exercising both
the acquisition branch and the residual-debit branch. -/
theorem c7_witness :
    ((xtzEvent 0 "in" 2).direction = "in" ∧
      (hmrcStep onePrice hInit (xtzEvent 0 "in" 2)).poolQty =
        hInit.poolQty + (xtzEvent 0 "in" 2).quantity) ∧
    ((xtzEvent 0 "out" 4).direction ≠ "in" ∧
      eps < residualAfterMatching poolOnlyState (xtzEvent 0 "out" 4) ∧
      eps < poolOnlyState.poolQty ∧
      (hmrcStep onePrice poolOnlyState (xtzEvent 0 "out" 4)).poolQty =
        poolOnlyState.poolQty -
          residualAfterMatching poolOnlyState (xtzEvent 0 "out" 4) ∧
      (hmrcStep onePrice poolOnlyState (xtzEvent 0 "out" 4)).poolCost =
        poolOnlyState.poolCost -
          residualAfterMatching poolOnlyState (xtzEvent 0 "out" 4) *
            (poolOnlyState.poolCost / poolOnlyState.poolQty)) :=
  ⟨⟨rfl, ((c7_pool_credit_debit onePrice hInit (xtzEvent 0 "in" 2)).1 rfl).1⟩,
   ⟨by decide, by decide, by decide, by exact
      (((c7_pool_credit_debit onePrice poolOnlyState (xtzEvent 0 "out" 4)).2
        (by decide)).1 (by decide) (by decide)).1, by exact
      (((c7_pool_credit_debit onePrice poolOnlyState (xtzEvent 0 "out" 4)).2
        (by decide)).1 (by decide) (by decide)).2⟩⟩

/-! ## Claim C10 -/

/-- C10: an XTZ transaction whose sender and target both equal the scanned
address, with positive amount, is normalized to direction "out" and tagged
`self_transfer` (confidence high), and both engines treat it as a disposal:
each emits exactly one DisposalRecord for it instead of excluding it as an
internal movement. -/
theorem c10_self_transfer_disposal (addr hash : String) (ts level : ℤ)
    (amt fee : ℚ) (hamt : 0 < amt) (p : Price) :
    ((buildEvents addr [⟨some ts, level, hash, addr, addr, amt, fee, false⟩] []).map
      fun e => (e.direction, e.tags, e.confidence)) =
      [("out", "payment_or_disposal|self_transfer", "high")] ∧
    (classifyIrs p (buildEvents addr
      [⟨some ts, level, hash, addr, addr, amt, fee, false⟩] [])).disposals.length = 1 ∧
    (hmrcRun p (buildEvents addr
      [⟨some ts, level, hash, addr, addr, amt, fee, false⟩] [])).disposals.length = 1 := by
  have hq : 0 < amt / 1000000 := by positivity
  have hne : ¬ (amt / 1000000 = 0 ∧ fee / 1000000 = 0) := fun h => absurd h.1 (ne_of_gt hq)
  have hoi : ("out" : String) ≠ "in" := by decide
  have hjoin : joinPipe ["payment_or_disposal", "self_transfer"] =
      "payment_or_disposal|self_transfer" := by decide
  have hev : buildEvents addr [⟨some ts, level, hash, addr, addr, amt, fee, false⟩] [] =
      [⟨ts, level, hash, "xtz_transfer", "out", addr, "XTZ", amt / 1000000,
        fee / 1000000, "transfer", "payment_or_disposal|self_transfer", "high"⟩] := by
    simp only [buildEvents, List.filterMap, buildXtzEvent, clamp]
    rw [if_neg hne]
    simp [hjoin, hamt, List.insertionSort, List.orderedInsert]
  rw [hev]
  refine ⟨by simp, ?_, ?_⟩
  · simp [classifyIrs, irsStep, hoi, hq]
  · have hin : hmrcInputList [(⟨ts, level, hash, "xtz_transfer", "out", addr, "XTZ",
        amt / 1000000, fee / 1000000, "transfer",
        "payment_or_disposal|self_transfer", "high"⟩ : Event)] =
        [⟨ts, level, hash, "xtz_transfer", "out", addr, "XTZ", amt / 1000000,
          fee / 1000000, "transfer", "payment_or_disposal|self_transfer", "high"⟩] := by
      simp [hmrcInputList, hq, List.insertionSort, List.orderedInsert]
    rw [hmrcRun, hmrcCore, hin]
    simp only [List.foldl_cons, List.foldl_nil]
    rw [firstPassStep, if_neg hoi, hmrcStep, if_neg hoi]
    simp only [hmrcDisposalStep]
    simp

/-- Witness for the hypotheses of `c10_self_transfer_disposal`. -/
theorem c10_witness :
    (0 : ℚ) < 500000 ∧
    ((buildEvents "tz1abc" [⟨some 0, 7, "oph", "tz1abc", "tz1abc", 500000, 1000, false⟩]
      []).map fun e => (e.direction, e.tags, e.confidence)) =
      [("out", "payment_or_disposal|self_transfer", "high")] ∧
    (classifyIrs onePrice (buildEvents "tz1abc"
      [⟨some 0, 7, "oph", "tz1abc", "tz1abc", 500000, 1000, false⟩] [])).disposals.length
      = 1 ∧
    (hmrcRun onePrice (buildEvents "tz1abc"
      [⟨some 0, 7, "oph", "tz1abc", "tz1abc", 500000, 1000, false⟩] [])).disposals.length
      = 1 :=
  ⟨by norm_num,
   (c10_self_transfer_disposal "tz1abc" "oph" 0 7 500000 1000 (by norm_num) onePrice).1,
   (c10_self_transfer_disposal "tz1abc" "oph" 0 7 500000 1000 (by norm_num) onePrice).2.1,
   (c10_self_transfer_disposal "tz1abc" "oph" 0 7 500000 1000 (by norm_num) onePrice).2.2⟩

/-! ## Consumption-loop lemmas (for claims C3 and C4) -/

theorem round8_zero : round8 0 = 0 := by decide

theorem sumTakes_append (a b : List MatchRec) :
    sumTakes (a ++ b) = sumTakes a + sumTakes b := by
  simp [sumTakes]

theorem consumeLots_sum_nonneg (lots : List Lot) : ∀ q : ℚ, 0 ≤ q →
    (∀ l ∈ lots, 0 ≤ l.qty) → 0 ≤ sumTakesLD (consumeLots q lots).2.1 := by
  induction lots with
  | nil => intro q _ _; simp [consumeLots, sumTakesLD]
  | cons l rest ih =>
    intro q hq hl
    by_cases hqe : q ≤ eps
    · simp [consumeLots, hqe, sumTakesLD]
    · have h0l : 0 ≤ l.qty := hl l (by simp)
      have htake0 : 0 ≤ min q l.qty := le_min hq h0l
      have htakeq : min q l.qty ≤ q := min_le_left _ _
      by_cases hrem : l.qty - min q l.qty ≤ eps
      · have ihr := ih (q - min q l.qty) (by linarith) (fun x hx => hl x (by simp [hx]))
        simp only [consumeLots, if_neg hqe, if_pos hrem, sumTakesLD, List.map_cons,
          List.sum_cons] at ihr ⊢
        linarith
      · simp only [consumeLots, if_neg hqe, if_neg hrem, sumTakesLD, List.map_cons,
          List.map_nil, List.sum_cons, List.sum_nil]
        linarith

theorem consumeLots_sum_le (lots : List Lot) : ∀ q : ℚ, 0 ≤ q →
    (∀ l ∈ lots, 0 ≤ l.qty) → sumTakesLD (consumeLots q lots).2.1 ≤ q := by
  induction lots with
  | nil => intro q hq _; simpa [consumeLots, sumTakesLD] using hq
  | cons l rest ih =>
    intro q hq hl
    by_cases hqe : q ≤ eps
    · simpa [consumeLots, hqe, sumTakesLD] using hq
    · have h0l : 0 ≤ l.qty := hl l (by simp)
      have htake0 : 0 ≤ min q l.qty := le_min hq h0l
      have htakeq : min q l.qty ≤ q := min_le_left _ _
      by_cases hrem : l.qty - min q l.qty ≤ eps
      · have ihr := ih (q - min q l.qty) (by linarith) (fun x hx => hl x (by simp [hx]))
        simp only [consumeLots, if_neg hqe, if_pos hrem, sumTakesLD, List.map_cons,
          List.sum_cons] at ihr ⊢
        linarith
      · simp only [consumeLots, if_neg hqe, if_neg hrem, sumTakesLD, List.map_cons,
          List.map_nil, List.sum_cons, List.sum_nil]
        linarith

theorem consumeLots_cover (lots : List Lot) : ∀ q : ℚ, 0 < q →
    (∀ l ∈ lots, 0 ≤ l.qty) →
    q + (lots.length : ℚ) * eps ≤ totalLotQty lots →
    q - sumTakesLD (consumeLots q lots).2.1 ≤ eps := by
  induction lots with
  | nil =>
    intro q hq _ hcov
    simp [totalLotQty] at hcov
    simp [consumeLots, sumTakesLD]
    linarith
  | cons l rest ih =>
    intro q hq hl hcov
    have hlen : (((l :: rest).length : ℕ) : ℚ) = (rest.length : ℚ) + 1 := by
      push_cast [List.length_cons]; ring
    rw [hlen] at hcov
    have htot : totalLotQty (l :: rest) = l.qty + totalLotQty rest := by
      simp [totalLotQty]
    rw [htot] at hcov
    by_cases hqe : q ≤ eps
    · simp only [consumeLots, if_pos hqe, sumTakesLD, List.map_nil, List.sum_nil]
      linarith
    · have h0l : 0 ≤ l.qty := hl l (by simp)
      have htake0 : 0 ≤ min q l.qty := le_min (le_of_lt hq) h0l
      have htakeq : min q l.qty ≤ q := min_le_left _ _
      by_cases hrem : l.qty - min q l.qty ≤ eps
      · by_cases hq2 : eps < q - min q l.qty
        · have ihr := ih (q - min q l.qty) (lt_trans eps_pos hq2)
            (fun x hx => hl x (by simp [hx])) (by linarith)
          simp only [consumeLots, if_neg hqe, if_pos hrem, sumTakesLD, List.map_cons,
            List.sum_cons] at ihr ⊢
          linarith
        · have hrest0 := consumeLots_sum_nonneg rest (q - min q l.qty) (by linarith)
            (fun x hx => hl x (by simp [hx]))
          simp only [consumeLots, if_neg hqe, if_pos hrem, sumTakesLD, List.map_cons,
            List.sum_cons] at hrest0 ⊢
          push_neg at hq2
          linarith
      · have htq : min q l.qty = q := by
          rcases le_total q l.qty with h | h
          · exact min_eq_left h
          · exact absurd (by rw [min_eq_right h]; simp [le_of_lt eps_pos]) hrem
        have hrem2 : ¬ l.qty - q ≤ eps := by rw [← htq]; exact hrem
        simp only [consumeLots, if_neg hqe, htq, if_neg hrem2, sumTakesLD, List.map_cons,
          List.map_nil, List.sum_cons, List.sum_nil]
        linarith [eps_nonneg]

theorem consumeLoop_sum_nonneg (lst : List AcqRec) : ∀ q : ℚ, 0 ≤ q →
    (∀ r ∈ lst, 0 ≤ r.qty) → 0 ≤ sumTakes (consumeLoop q lst).2.1 := by
  induction lst with
  | nil => intro q _ _; simp [consumeLoop, sumTakes]
  | cons r rest ih =>
    intro q hq hl
    by_cases hqe : q ≤ eps
    · simp [consumeLoop, hqe, sumTakes]
    · have h0r : 0 ≤ r.qty := hl r (by simp)
      have htake0 : 0 ≤ min q r.qty := le_min hq h0r
      have htakeq : min q r.qty ≤ q := min_le_left _ _
      by_cases hrem : r.qty - min q r.qty ≤ eps
      · have ihr := ih (q - min q r.qty) (by linarith) (fun x hx => hl x (by simp [hx]))
        simp only [consumeLoop, if_neg hqe, if_pos hrem, sumTakes, List.map_cons,
          List.sum_cons] at ihr ⊢
        linarith
      · simp only [consumeLoop, if_neg hqe, if_neg hrem, sumTakes, List.map_cons,
          List.map_nil, List.sum_cons, List.sum_nil]
        linarith

theorem consumeLoop_sum_le (lst : List AcqRec) : ∀ q : ℚ, 0 ≤ q →
    (∀ r ∈ lst, 0 ≤ r.qty) → sumTakes (consumeLoop q lst).2.1 ≤ q := by
  induction lst with
  | nil => intro q hq _; simpa [consumeLoop, sumTakes] using hq
  | cons r rest ih =>
    intro q hq hl
    by_cases hqe : q ≤ eps
    · simpa [consumeLoop, hqe, sumTakes] using hq
    · have h0r : 0 ≤ r.qty := hl r (by simp)
      have htake0 : 0 ≤ min q r.qty := le_min hq h0r
      have htakeq : min q r.qty ≤ q := min_le_left _ _
      by_cases hrem : r.qty - min q r.qty ≤ eps
      · have ihr := ih (q - min q r.qty) (by linarith) (fun x hx => hl x (by simp [hx]))
        simp only [consumeLoop, if_neg hqe, if_pos hrem, sumTakes, List.map_cons,
          List.sum_cons] at ihr ⊢
        linarith
      · simp only [consumeLoop, if_neg hqe, if_neg hrem, sumTakes, List.map_cons,
          List.map_nil, List.sum_cons, List.sum_nil]
        linarith

theorem consumeFromList_sum_nonneg (lst : List AcqRec) (q : ℚ) (hq : 0 ≤ q)
    (hl : ∀ r ∈ lst, 0 ≤ r.qty) : 0 ≤ sumTakes (consumeFromList q lst).2.1 :=
  consumeLoop_sum_nonneg lst q hq hl

theorem consumeFromList_sum_le (lst : List AcqRec) (q : ℚ) (hq : 0 ≤ q)
    (hl : ∀ r ∈ lst, 0 ≤ r.qty) : sumTakes (consumeFromList q lst).2.1 ≤ q :=
  consumeLoop_sum_le lst q hq hl

theorem thirtyFold_qty (l : List FAcq) : ∀ st : ThirtyState, 0 ≤ st.qtyLeft →
    (∀ r ∈ l, 0 ≤ r.qty) →
    0 ≤ (l.foldl thirtyStep st).qtyLeft ∧
    sumTakes (l.foldl thirtyStep st).used =
      sumTakes st.used + (st.qtyLeft - (l.foldl thirtyStep st).qtyLeft) := by
  induction l with
  | nil => intro st h _; simp [h]
  | cons r rest ih =>
    intro st h hl
    simp only [List.foldl_cons]
    by_cases hq : st.qtyLeft ≤ eps
    · rw [show thirtyStep st r = st from by rw [thirtyStep, if_pos hq]]
      exact ih st h (fun x hx => hl x (by simp [hx]))
    · have h0r : 0 ≤ r.qty := hl r (by simp)
      have hq2 : (thirtyStep st r).qtyLeft = st.qtyLeft - min st.qtyLeft r.qty := by
        rw [thirtyStep, if_neg hq]
      have hs2 : sumTakes (thirtyStep st r).used =
          sumTakes st.used + min st.qtyLeft r.qty := by
        rw [thirtyStep, if_neg hq]
        simp [sumTakes_append, sumTakes]
      have hnn : 0 ≤ (thirtyStep st r).qtyLeft := by
        rw [hq2]; simp [min_le_left]
      have ihr := ih (thirtyStep st r) hnn (fun x hx => hl x (by simp [hx]))
      refine ⟨ihr.1, ?_⟩
      rw [ihr.2, hs2, hq2]
      ring

theorem thirtyPhase_spec (ddt : ℤ) (st : ThirtyState) (h : 0 ≤ st.qtyLeft) :
    0 ≤ (thirtyPhase ddt st).qtyLeft ∧
    sumTakes (thirtyPhase ddt st).used =
      sumTakes st.used + (st.qtyLeft - (thirtyPhase ddt st).qtyLeft) := by
  rw [thirtyPhase]
  refine thirtyFold_qty _ st h ?_
  intro r hr
  have hr2 : r ∈ st.futureAcqs.filter
      (fun r => eligible30 ddt r.dt && decide (eps < r.qty)) :=
    (List.Perm.mem_iff (List.perm_insertionSort dtLe _)).mp hr
  have hf := List.of_mem_filter hr2
  rw [Bool.and_eq_true] at hf
  have h2 : eps < r.qty := of_decide_eq_true hf.2
  linarith [eps_pos]


theorem poolPhase_used_small (pq pc r : ℚ) (hr : ¬ eps < r) :
    (poolPhase pq pc r).2.1 = [] := by
  rw [poolPhase, if_neg hr]

theorem poolPhase_used_debit (pq pc r : ℚ) (hr : eps < r) (hp : ¬ pq ≤ eps) :
    (poolPhase pq pc r).2.1 = [⟨none, r, pc / pq, some "S104"⟩] := by
  rw [poolPhase, if_pos hr, if_neg hp]

/-- Any disposal record emitted by the UK disposal step with more than ε in
the pool has a breakdown summing to the disposed quantity within ε. -/
theorem hmrcDisposalStep_breakdown_bound (p : Price) (s : HState) (e : Event)
    (hq : 0 < e.quantity)
    (hbucket : ∀ r ∈ lookupDay s.acqByDay (dayOf e.timestamp), 0 ≤ r.qty)
    (hpool : eps < s.poolQty) :
    ∀ r ∈ (hmrcDisposalStep p s e).disposals, r ∈ s.disposals ∨
      (0 ≤ r.qtyDisposed - sumTakes r.breakdown ∧
       r.qtyDisposed - sumTakes r.breakdown ≤ eps) := by
  intro r hr
  have hsd0 : 0 ≤ sumTakes (consumeFromList e.quantity
      (lookupDay s.acqByDay (dayOf e.timestamp))).2.1 :=
    consumeFromList_sum_nonneg _ _ (le_of_lt hq) hbucket
  have hsdle : sumTakes (consumeFromList e.quantity
      (lookupDay s.acqByDay (dayOf e.timestamp))).2.1 ≤ e.quantity :=
    consumeFromList_sum_le _ _ (le_of_lt hq) hbucket
  simp only [hmrcDisposalStep] at hr
  rcases List.mem_append.mp hr with hold | hnew
  · exact Or.inl hold
  · right
    rw [List.mem_singleton] at hnew
    subst hnew
    dsimp only
    by_cases h30 : eps < e.quantity - sumTakes (consumeFromList e.quantity
        (lookupDay s.acqByDay (dayOf e.timestamp))).2.1
    · rw [if_pos h30]
      obtain ⟨htq0, htsum⟩ := thirtyPhase_spec e.timestamp
        ⟨e.quantity - sumTakes (consumeFromList e.quantity
            (lookupDay s.acqByDay (dayOf e.timestamp))).2.1,
          (consumeFromList e.quantity (lookupDay s.acqByDay (dayOf e.timestamp))).1,
          (consumeFromList e.quantity (lookupDay s.acqByDay (dayOf e.timestamp))).2.1,
          s.futureAcqs⟩ (by dsimp only; linarith)
      dsimp only at htsum
      by_cases hP : eps < (thirtyPhase e.timestamp
          ⟨e.quantity - sumTakes (consumeFromList e.quantity
              (lookupDay s.acqByDay (dayOf e.timestamp))).2.1,
            (consumeFromList e.quantity (lookupDay s.acqByDay (dayOf e.timestamp))).1,
            (consumeFromList e.quantity (lookupDay s.acqByDay (dayOf e.timestamp))).2.1,
            s.futureAcqs⟩).qtyLeft
      · rw [poolPhase_used_debit _ _ _ hP (not_le.mpr hpool), sumTakes_append]
        have : sumTakes [(⟨none, (thirtyPhase e.timestamp
            ⟨e.quantity - sumTakes (consumeFromList e.quantity
                (lookupDay s.acqByDay (dayOf e.timestamp))).2.1,
              (consumeFromList e.quantity (lookupDay s.acqByDay (dayOf e.timestamp))).1,
              (consumeFromList e.quantity (lookupDay s.acqByDay (dayOf e.timestamp))).2.1,
              s.futureAcqs⟩).qtyLeft, s.poolCost / s.poolQty, some "S104"⟩ :
            MatchRec)] = (thirtyPhase e.timestamp
            ⟨e.quantity - sumTakes (consumeFromList e.quantity
                (lookupDay s.acqByDay (dayOf e.timestamp))).2.1,
              (consumeFromList e.quantity (lookupDay s.acqByDay (dayOf e.timestamp))).1,
              (consumeFromList e.quantity (lookupDay s.acqByDay (dayOf e.timestamp))).2.1,
              s.futureAcqs⟩).qtyLeft := by
          simp [sumTakes]
        rw [this, htsum]
        constructor <;> linarith [eps_nonneg]
      · rw [poolPhase_used_small _ _ _ hP]
        rw [List.append_nil, htsum]
        constructor <;> linarith [not_lt.mp hP]
    · rw [if_neg h30]
      dsimp only
      rw [poolPhase_used_small _ _ _ h30]
      rw [List.append_nil]
      constructor <;> linarith [not_lt.mp h30]

/-! ## Claim C3: amended -/

/-- C3 (amended): the breakdown of a disposal sums to the disposed quantity
within ε = 1e-12 *provided supply is not exhausted*: for the FIFO engine,
when the open lots cover the disposal (with an ε of slack per lot); for the
UK engine, when the pool holds more than ε when the disposal is processed.
When supply runs out, the unmatched shortfall is simply absent from the
breakdown (no entry records it), so the claim's unconditional equality
fails (see the counterexample). -/
theorem c3_breakdown_sum :
    (∀ (p : Price) (s : IrsState) (e : Event), e.asset = "XTZ" →
      e.direction = "out" → 0 < e.quantity → (∀ l ∈ s.lots, 0 ≤ l.qty) →
      e.quantity + (s.lots.length : ℚ) * eps ≤ totalLotQty s.lots →
      ∀ r ∈ (irsStep p s e).disposals, r ∈ s.disposals ∨
        (0 ≤ r.qtyDisposed - sumTakesLD r.lotBreakdown ∧
         r.qtyDisposed - sumTakesLD r.lotBreakdown ≤ eps)) ∧
    (∀ (p : Price) (s : HState) (e : Event), e.direction ≠ "in" →
      0 < e.quantity → (∀ r ∈ lookupDay s.acqByDay (dayOf e.timestamp), 0 ≤ r.qty) →
      eps < s.poolQty →
      ∀ r ∈ (hmrcStep p s e).disposals, r ∈ s.disposals ∨
        (0 ≤ r.qtyDisposed - sumTakes r.breakdown ∧
         r.qtyDisposed - sumTakes r.breakdown ≤ eps)) := by
  constructor
  · intro p s e ha hd hq hl hcov r hr
    rw [irsStep, if_pos ha] at hr
    have hcond1 : ¬ (e.direction = "in" ∧ 0 < e.quantity) := by
      rintro ⟨h1, _⟩
      rw [hd] at h1
      exact absurd h1 (by decide)
    rw [if_neg hcond1, if_pos ⟨hd, hq⟩] at hr
    rcases List.mem_append.mp hr with hold | hnew
    · exact Or.inl hold
    · right
      rw [List.mem_singleton] at hnew
      subst hnew
      dsimp only
      have h1 := consumeLots_sum_le s.lots e.quantity (le_of_lt hq) hl
      have h2 := consumeLots_cover s.lots e.quantity hq hl hcov
      constructor <;> linarith
  · intro p s e hd hq hbucket hpool r hr
    rw [hmrcStep, if_neg hd] at hr
    exact hmrcDisposalStep_breakdown_bound p s e hq hbucket hpool r hr

/-- Witness for the hypotheses of `c3_breakdown_sum`: a FIFO disposal of 4
against a 10-unit lot, and a UK disposal of 4 against a pool of 10. -/
theorem c3_witness :
    ((xtzEvent 86400 "out" 4).quantity +
      ((oneLotState.lots.length : ℕ) : ℚ) * eps ≤ totalLotQty oneLotState.lots) ∧
    (∀ r ∈ (irsStep onePrice oneLotState (xtzEvent 86400 "out" 4)).disposals,
      r ∈ oneLotState.disposals ∨
        (0 ≤ r.qtyDisposed - sumTakesLD r.lotBreakdown ∧
         r.qtyDisposed - sumTakesLD r.lotBreakdown ≤ eps)) ∧
    eps < poolOnlyState.poolQty ∧
    (∀ r ∈ (hmrcStep onePrice poolOnlyState (xtzEvent 0 "out" 4)).disposals,
      r ∈ poolOnlyState.disposals ∨
        (0 ≤ r.qtyDisposed - sumTakes r.breakdown ∧
         r.qtyDisposed - sumTakes r.breakdown ≤ eps)) :=
  ⟨by decide,
   c3_breakdown_sum.1 onePrice oneLotState (xtzEvent 86400 "out" 4) rfl rfl
     (by decide) (by decide) (by decide),
   by decide,
   c3_breakdown_sum.2 onePrice poolOnlyState (xtzEvent 0 "out" 4) (by decide)
     (by decide) (by decide) (by decide)⟩


/-! ## Claim C4: amended -/

/-- C4 (amended): when a disposal exceeds all available supply the engines
do not abort — the shortfall contributes zero cost basis and the run
continues — but the over-disposal is *not* observable as an explicit
zero-cost breakdown entry or flag: the FIFO engine emits the record with an
empty breakdown (no `rule=FIFO`, `unit_cost=0` entry), and the UK engine's
empty-pool branch likewise appends nothing to the breakdown; the shortfall
is only inferable by comparing `qty_disposed` with the breakdown sum. -/
theorem c4_overdisposal_silent :
    (∀ (p : Price) (s : IrsState) (e : Event), e.asset = "XTZ" →
      e.direction = "out" → 0 < e.quantity → s.lots = [] →
      (irsStep p s e).disposals = s.disposals ++
        [⟨e.timestamp, "XTZ", e.quantity, round8 (xtzFmv p e.timestamp),
          round8 (e.quantity * xtzFmv p e.timestamp), 0,
          round8 (e.quantity * xtzFmv p e.timestamp), e.feeXtz, e.opHash, []⟩] ∧
      (irsStep p s e).lots = []) ∧
    (∀ (p : Price) (s : HState) (e : Event), e.direction ≠ "in" →
      eps < e.quantity → lookupDay s.acqByDay (dayOf e.timestamp) = [] →
      s.futureAcqs = [] → s.poolQty ≤ eps →
      (hmrcStep p s e).disposals = s.disposals ++
        [⟨e.timestamp, "XTZ", e.quantity, round8 (xtzFmv p e.timestamp),
          round8 (e.quantity * xtzFmv p e.timestamp), 0,
          round8 (e.quantity * xtzFmv p e.timestamp), e.opHash, []⟩] ∧
      (hmrcStep p s e).poolQty = s.poolQty ∧
      (hmrcStep p s e).poolCost = s.poolCost) := by
  constructor
  · intro p s e ha hd hq hlots
    rw [irsStep, if_pos ha]
    have hcond1 : ¬ (e.direction = "in" ∧ 0 < e.quantity) := by
      rintro ⟨h1, _⟩
      rw [hd] at h1
      exact absurd h1 (by decide)
    rw [if_neg hcond1, if_pos ⟨hd, hq⟩, hlots]
    constructor
    · dsimp only
      rw [ha]
      simp [consumeLots, round8_zero]
    · dsimp only
      simp [consumeLots]
  · intro p s e hd hq hbuck hfa hpool
    rw [hmrcStep, if_neg hd]
    simp only [hmrcDisposalStep, hbuck, hfa]
    simp only [consumeFromList, consumeLoop, List.filter_nil, sumTakes, List.map_nil,
      List.sum_nil, sub_zero]
    rw [if_pos hq]
    simp only [thirtyPhase, List.filter_nil]
    rw [show List.insertionSort dtLe ([] : List FAcq) = [] from rfl]
    simp only [List.foldl_nil]
    rw [poolPhase, if_pos hq, if_pos hpool]
    refine ⟨?_, rfl, rfl⟩
    simp [round8_zero]
  
/-- Witness for the hypotheses of `c4_overdisposal_silent`: disposing 5
units against an empty FIFO queue and against an empty UK state. -/
theorem c4_witness :
    ((xtzEvent 0 "out" 5).asset = "XTZ" ∧ (0 : ℚ) < (xtzEvent 0 "out" 5).quantity ∧
      eps < (xtzEvent 0 "out" 5).quantity ∧ hInit.poolQty ≤ eps) ∧
    (irsStep threePrice ⟨[], []⟩ (xtzEvent 0 "out" 5)).disposals =
      [⟨(xtzEvent 0 "out" 5).timestamp, "XTZ", (xtzEvent 0 "out" 5).quantity,
        round8 (xtzFmv threePrice (xtzEvent 0 "out" 5).timestamp),
        round8 ((xtzEvent 0 "out" 5).quantity *
          xtzFmv threePrice (xtzEvent 0 "out" 5).timestamp), 0,
        round8 ((xtzEvent 0 "out" 5).quantity *
          xtzFmv threePrice (xtzEvent 0 "out" 5).timestamp),
        (xtzEvent 0 "out" 5).feeXtz, (xtzEvent 0 "out" 5).opHash, []⟩] ∧
    (hmrcStep threePrice hInit (xtzEvent 0 "out" 5)).disposals =
      [⟨(xtzEvent 0 "out" 5).timestamp, "XTZ", (xtzEvent 0 "out" 5).quantity,
        round8 (xtzFmv threePrice (xtzEvent 0 "out" 5).timestamp),
        round8 ((xtzEvent 0 "out" 5).quantity *
          xtzFmv threePrice (xtzEvent 0 "out" 5).timestamp), 0,
        round8 ((xtzEvent 0 "out" 5).quantity *
          xtzFmv threePrice (xtzEvent 0 "out" 5).timestamp),
        (xtzEvent 0 "out" 5).opHash, []⟩] :=
  ⟨⟨rfl, by decide, by decide, by decide⟩,
   (c4_overdisposal_silent.1 threePrice ⟨[], []⟩ (xtzEvent 0 "out" 5) rfl rfl
     (by decide) rfl).1,
   (c4_overdisposal_silent.2 threePrice hInit (xtzEvent 0 "out" 5) (by decide)
     (by decide) rfl rfl (by decide)).1⟩

end TezosTax
